import Mathlib

/-!
Shallow embedding of `src/main.rs` of the `hyper-microservice` repository:
an in-memory user store backed by the `slab` crate, behind an HTTP-shaped
handler (`microservice_handler`).  The embedding models

* the `slab::Slab` allocator (entries vector, live count, free-list head,
  with `Vacant` entries chaining a LIFO free list), with `insert`, `get`,
  `get_mut`-assignment, `contains`, `remove` and index-ordered iteration;
* the three routing regexes `INDEX_PATH`, `USERS_PATH`, `USER_PATH` as
  decidable matching functions on the path's character list, including the
  optional `user_id` capture group of `USER_PATH`;
* `str::parse::<u64>` on the captured digit text (fails on overflow);
* the dispatch `match (method, user_id)` of `microservice_handler` and the
  `response_with_code` helper.

Places where the Rust code can panic (`unreachable!()` inside
`Slab::insert_at`, `panic!` inside `Slab::remove`) are modelled by `Option`:
`none` is a panic, `some` a normal return.
-/

set_option maxHeartbeats 1000000

namespace HyperMicroservice

/-- The record payload.  In the source, `struct UserData;` is a unit struct:
it carries no data. -/
inductive UserData where
  | mk
deriving DecidableEq

/-- `impl fmt::Display for UserData` writes the empty JSON object. -/
def UserData.display : UserData → String := fun _ => "\x7b\x7d"

/-- One slot of the slab: a vacant slot stores the index of the next slot on
the free list (`Entry::Vacant(usize)` in the `slab` crate), an occupied slot
stores the value. -/
inductive Entry where
  | vacant (next : Nat)
  | occupied (value : UserData)
deriving DecidableEq

/-- The `slab::Slab` allocator: entry vector, number of live entries, and the
head of the LIFO free list (`next` is the key the next insertion will use;
it equals `entries.length` when the free list is empty). -/
structure Slab where
  entries : List Entry
  len : Nat
  next : Nat
deriving DecidableEq

/-- `Slab::new()`. -/
def Slab.new : Slab := ⟨[], 0, 0⟩

/-- `Slab::insert`: take the key at the head of the free list (`self.next`);
if that key is one past the end, push a new entry, otherwise replace the
vacant entry there and advance the free-list head to the vacant entry's
stored successor.  `none` models the `unreachable!()` panic that fires when
`self.next` points at an occupied entry (impossible for well-formed slabs). -/
def Slab.insert (s : Slab) (val : UserData) : Option (Nat × Slab) :=
  let key := s.next
  if key = s.entries.length then
    some (key, ⟨s.entries ++ [Entry.occupied val], s.len + 1, key + 1⟩)
  else
    match s.entries[key]? with
    | some (Entry.vacant n) =>
        some (key, ⟨s.entries.set key (Entry.occupied val), s.len + 1, n⟩)
    | _ => none

/-- `Slab::get`: `Some` of the value when the key holds an occupied entry. -/
def Slab.get (s : Slab) (key : Nat) : Option UserData :=
  match s.entries[key]? with
  | some (Entry.occupied v) => some v
  | _ => none

/-- `Slab::contains`: whether the key holds an occupied entry. -/
def Slab.contains (s : Slab) (key : Nat) : Bool :=
  (s.get key).isSome

/-- `Slab::get_mut` followed by the assignment `*user = val`: replaces the
value at `key` when it is occupied, `none` (no store change, handler takes
the `NOT_FOUND` branch) otherwise. -/
def Slab.setValue (s : Slab) (key : Nat) (val : UserData) : Option Slab :=
  match s.entries[key]? with
  | some (Entry.occupied _) =>
      some ⟨s.entries.set key (Entry.occupied val), s.len, s.next⟩
  | _ => none

/-- `Slab::remove`: replace the occupied entry with a vacant one pointing at
the old free-list head and make the removed key the new head.  `none` models
the `panic!("invalid key")` on a non-live key (the handler only calls it
under a `contains` guard). -/
def Slab.remove (s : Slab) (key : Nat) : Option (UserData × Slab) :=
  match s.entries[key]? with
  | some (Entry.occupied v) =>
      some (v, ⟨s.entries.set key (Entry.vacant s.next), s.len - 1, key⟩)
  | _ => none

/-- `Slab::iter` projected onto the keys: walk the entry vector in index
order, yielding the index of every occupied entry. -/
def iterIdsAux : List Entry → Nat → List Nat
  | [], _ => []
  | Entry.occupied _ :: es, i => i :: iterIdsAux es (i + 1)
  | Entry.vacant _ :: es, i => iterIdsAux es (i + 1)

/-- The ids produced by `users.iter().map(|(id, _)| id)`. -/
def Slab.iterIds (s : Slab) : List Nat := iterIdsAux s.entries 0

/-- The HTTP methods the handler distinguishes; every verb other than the
four named ones falls into the catch-all `_` arm of the dispatch match. -/
inductive Method where
  | GET
  | POST
  | PUT
  | DELETE
  | other (name : String)
deriving DecidableEq

/-- A response: status code and body text. -/
structure Response where
  status : Nat
  body : String
deriving DecidableEq

/-- `response_with_code`: the given status with an empty body. -/
def response_with_code (status : Nat) : Response := ⟨status, ""⟩

/-- The `INDEX` landing-page constant (the raw string in the source). -/
def INDEX : String :=
  "\n <!doctype html>\n <html>\n     <head>\n         <title>Rust Microservice</title>\n     </head>\n     <body>\n         <h3>Rust Microservice</h3>\n     </body>\n </html>\n "

/-- The regex `^/(index\.html?)?$`: its language is exactly the three
strings `/`, `/index.htm`, `/index.html`. -/
def INDEX_PATH_is_match : List Char → Bool
  | ['/'] => true
  | ['/', 'i', 'n', 'd', 'e', 'x', '.', 'h', 't', 'm'] => true
  | ['/', 'i', 'n', 'd', 'e', 'x', '.', 'h', 't', 'm', 'l'] => true
  | _ => false

/-- The regex `^/users/?$`: its language is `/users` and `/users/`. -/
def USERS_PATH_is_match : List Char → Bool
  | ['/', 'u', 's', 'e', 'r', 's'] => true
  | ['/', 'u', 's', 'e', 'r', 's', '/'] => true
  | _ => false

/-- Strip a literal leading character sequence, returning the remainder on
success. -/
def stripLead : List Char → List Char → Option (List Char)
  | [], cs => some cs
  | _ :: _, [] => none
  | p :: ps, c :: cs => if p = c then stripLead ps cs else none

/-- Match the tail of `USER_PATH` after `/user/`, i.e. the regex fragment
`((?P<user_id>\d+?)/?)?$`: empty tail → match with no capture; nonempty
digit run with at most one trailing `/` → match capturing the digits;
anything else → no match.  `some cap` is a regex match whose `user_id`
group is `cap`. -/
def idSegment (rest : List Char) : Option (Option (List Char)) :=
  if rest.isEmpty then some none
  else if rest.all Char.isDigit then some (some rest)
  else if rest.getLast? = some '/' ∧ ¬rest.dropLast.isEmpty ∧ rest.dropLast.all Char.isDigit then
    some (some rest.dropLast)
  else none

/-- The regex `^/user/((?P<user_id>\d+?)/?)?$` with its capture group:
`none` = no match, `some none` = match with no id text,
`some (some ds)` = match capturing digit text `ds`. -/
def USER_PATH_captures (path : List Char) : Option (Option (List Char)) :=
  match stripLead ('/' :: 'u' :: 's' :: 'e' :: 'r' :: '/' :: []) path with
  | some rest => idSegment rest
  | none => none

/-- Numeric value of a decimal digit character. -/
def digitVal (c : Char) : Nat := c.toNat - '0'.toNat

/-- Left fold of decimal digits, as Rust's `from_str` accumulates. -/
def digitsVal : List Char → Nat → Nat
  | [], n => n
  | c :: cs, n => digitsVal cs (n * 10 + digitVal c)

/-- One past the largest `u64` value. -/
def U64_SIZE : Nat := 2 ^ 64

/-- `str::parse::<u64>` restricted to what the capture group can produce
(a digit run): the digits' value when it fits in 64 bits, `none` on empty
input, non-digit input, or overflow. -/
def parse_u64 (s : List Char) : Option Nat :=
  if s.isEmpty then none
  else if s.all Char.isDigit then
    let n := digitsVal s 0
    if n < U64_SIZE then some n else none
  else none

/-- The `match (method, user_id)` dispatch block of `microservice_handler`
for a path that matched `USER_PATH` (`user_id` is the parsed capture). -/
def user_item_dispatch (method : Method) (user_id : Option Nat) (users : Slab) :
    Option (Response × Slab) :=
  match method, user_id with
  | Method.GET, some id =>
      match users.get id with
      | some data => some (⟨200, data.display⟩, users)
      | none => some (response_with_code 404, users)
  | Method.PUT, some id =>
      match users.setValue id UserData.mk with
      | some users2 => some (response_with_code 200, users2)
      | none => some (response_with_code 404, users)
  | Method.POST, none =>
      match users.insert UserData.mk with
      | some (id, users2) => some (⟨200, Nat.repr id⟩, users2)
      | none => none
  | Method.POST, some _ => some (response_with_code 400, users)
  | Method.DELETE, some id =>
      if users.contains id then
        match users.remove id with
        | some (_, users2) => some (response_with_code 200, users2)
        | none => none
      else some (response_with_code 404, users)
  | _, _ => some (response_with_code 405, users)

/-- `microservice_handler`: route the (method, path) pair through the three
regexes and dispatch.  `reqBody` is the request body, which the source never
reads.  The result pairs the response with the store after the request;
`none` models a panic (never reached from well-formed stores). -/
def microservice_handler (method : Method) (path : String) (reqBody : String)
    (users : Slab) : Option (Response × Slab) :=
  if INDEX_PATH_is_match path.data then
    if method = Method.GET then some (⟨200, INDEX⟩, users)
    else some (response_with_code 405, users)
  else if USERS_PATH_is_match path.data then
    if method = Method.GET then
      some (⟨200, String.intercalate "," ((Slab.iterIds users).map Nat.repr)⟩, users)
    else some (response_with_code 405, users)
  else
    match USER_PATH_captures path.data with
    | some cap => user_item_dispatch method (cap.bind parse_u64) users
    | none => some (response_with_code 404, users)

/-- The free-list chain of a slab: `FreeChain entries start L` says that
starting from index `start` and repeatedly following the successor stored in
each vacant entry visits exactly the indices in `L` and ends at
`entries.length` (the "push a fresh entry" terminator). -/
inductive FreeChain (entries : List Entry) : Nat → List Nat → Prop where
  | done : FreeChain entries entries.length []
  | step {i n : Nat} {L : List Nat} :
      entries[i]? = some (Entry.vacant n) →
      FreeChain entries n L →
      FreeChain entries i (i :: L)

/-- A well-formed slab: its free-list head starts a duplicate-free chain.
Every slab reachable from `Slab.new` through the operations is well-formed
(`microservice_handler_preserves_WF`). -/
def Slab.WF (s : Slab) : Prop :=
  ∃ L : List Nat, FreeChain s.entries s.next L ∧ L.Nodup

/-! ### Routing lemmas -/

theorem stripLead_eq (p : List Char) : ∀ cs rest : List Char,
    stripLead p cs = some rest → cs = p ++ rest := by
  induction p with
  | nil =>
    intro cs rest h
    simp only [stripLead] at h
    cases h
    rfl
  | cons a ps ih =>
    intro cs rest h
    cases cs with
    | nil => simp [stripLead] at h
    | cons c cs' =>
      simp only [stripLead] at h
      split at h
      · next hpc =>
        subst hpc
        simpa using ih cs' rest h
      · exact absurd h (by simp)

theorem captures_shape (path : List Char) (cap : Option (List Char))
    (h : USER_PATH_captures path = some cap) :
    ∃ rest, path = '/' :: 'u' :: 's' :: 'e' :: 'r' :: '/' :: rest ∧
      idSegment rest = some cap := by
  unfold USER_PATH_captures at h
  split at h
  · next rest hs =>
    exact ⟨rest, stripLead_eq _ _ _ hs, h⟩
  · exact absurd h (by simp)

theorem handler_unfold_user (m : Method) (b : String) (s : Slab) (rest : List Char) :
    microservice_handler m (String.mk ('/' :: 'u' :: 's' :: 'e' :: 'r' :: '/' :: rest)) b s =
      match idSegment rest with
      | some cap => user_item_dispatch m (cap.bind parse_u64) s
      | none => some (response_with_code 404, s) := rfl

theorem handler_user_branch (m : Method) (path : String) (b : String) (s : Slab)
    (cap : Option (List Char)) (h : USER_PATH_captures path.data = some cap) :
    microservice_handler m path b s = user_item_dispatch m (cap.bind parse_u64) s := by
  obtain ⟨rest, hd, hseg⟩ := captures_shape _ _ h
  have hpath : path = String.mk ('/' :: 'u' :: 's' :: 'e' :: 'r' :: '/' :: rest) :=
    congrArg String.mk hd
  rw [hpath, handler_unfold_user, hseg]

theorem captures_digits (path : List Char) (ds : List Char)
    (h : USER_PATH_captures path = some (some ds)) :
    ds ≠ [] ∧ ds.all Char.isDigit = true := by
  obtain ⟨rest, _, hseg⟩ := captures_shape _ _ h
  unfold idSegment at hseg
  split at hseg
  · exact absurd hseg (by simp)
  · rename_i hne
    split at hseg
    · rename_i hdig
      obtain rfl : rest = ds := by simpa using hseg
      exact ⟨by simpa [List.isEmpty_iff] using hne, hdig⟩
    · split at hseg
      · rename_i hcond
        obtain rfl : rest.dropLast = ds := by simpa using hseg
        exact ⟨by simpa [List.isEmpty_iff] using hcond.2.1, hcond.2.2⟩
      · exact absurd hseg (by simp)

/-! ### Free-list invariant -/

theorem chain_all_vacant {entries : List Entry} {i : Nat} {L : List Nat}
    (h : FreeChain entries i L) :
    ∀ j ∈ L, ∃ n, entries[j]? = some (Entry.vacant n) := by
  induction h with
  | done => intro j hj; exact absurd hj (List.not_mem_nil j)
  | step hv _ ih =>
    intro j hj
    rcases List.mem_cons.mp hj with rfl | hj
    · exact ⟨_, hv⟩
    · exact ih j hj

theorem chain_set_not_mem {entries : List Entry} {i : Nat} {L : List Nat}
    (h : FreeChain entries i L) (k : Nat) (e : Entry) (hk : k ∉ L) :
    FreeChain (entries.set k e) i L := by
  induction h with
  | done =>
    have hlen : (entries.set k e).length = entries.length := List.length_set ..
    exact hlen ▸ FreeChain.done
  | step hv hc ih =>
    rename_i i' n L'
    have hne : k ≠ i' := fun hkk => hk (hkk ▸ List.mem_cons_self i' L')
    refine FreeChain.step ?_ (ih (fun hm => hk (List.mem_cons_of_mem _ hm)))
    rw [List.getElem?_set_ne hne]
    exact hv

theorem WF_new : Slab.new.WF :=
  ⟨[], FreeChain.done, List.nodup_nil⟩

theorem insert_WF (s : Slab) (v : UserData) (h : s.WF) :
    ∃ t, s.insert v = some (s.next, t) ∧ t.WF := by
  obtain ⟨es, len, nx⟩ := s
  obtain ⟨L, hc, hnd⟩ := h
  dsimp only at hc
  cases hc with
  | done =>
    refine ⟨⟨es ++ [Entry.occupied v], len + 1, es.length + 1⟩, ?_, ?_⟩
    · simp [Slab.insert]
    · refine ⟨[], ?_, List.nodup_nil⟩
      have hl : (es ++ [Entry.occupied v]).length = es.length + 1 := by simp
      exact hl ▸ FreeChain.done
  | step hv hrest =>
    rename_i n L'
    have hlt : nx < es.length := by
      by_contra hge
      rw [List.getElem?_eq_none (Nat.le_of_not_lt hge)] at hv
      cases hv
    refine ⟨⟨es.set nx (Entry.occupied v), len + 1, n⟩, ?_, ?_⟩
    · simp only [Slab.insert, if_neg (Nat.ne_of_lt hlt), hv]
    · refine ⟨L', ?_, (List.nodup_cons.mp hnd).2⟩
      exact chain_set_not_mem hrest nx _ (List.nodup_cons.mp hnd).1

theorem setValue_WF (s : Slab) (k : Nat) (v : UserData) (t : Slab)
    (hset : s.setValue k v = some t) (h : s.WF) : t.WF := by
  obtain ⟨L, hc, hnd⟩ := h
  unfold Slab.setValue at hset
  split at hset
  · rename_i w hw
    cases hset
    refine ⟨L, ?_, hnd⟩
    refine chain_set_not_mem hc k _ (fun hm => ?_)
    obtain ⟨n, hn⟩ := chain_all_vacant hc k hm
    rw [hw] at hn
    cases hn
  · exact absurd hset (by simp)

theorem remove_eq (s : Slab) (k : Nat) (v : UserData) (t : Slab)
    (h : s.remove k = some (v, t)) :
    s.entries[k]? = some (Entry.occupied v) ∧
      t = ⟨s.entries.set k (Entry.vacant s.next), s.len - 1, k⟩ := by
  unfold Slab.remove at h
  split at h
  · rename_i w hw
    cases h
    exact ⟨hw, rfl⟩
  · exact absurd h (by simp)

theorem remove_WF (s : Slab) (k : Nat) (v : UserData) (t : Slab)
    (hrem : s.remove k = some (v, t)) (h : s.WF) : t.WF := by
  obtain ⟨L, hc, hnd⟩ := h
  obtain ⟨hw, rfl⟩ := remove_eq s k v _ hrem
  have hknotL : k ∉ L := fun hm => by
    obtain ⟨n, hn⟩ := chain_all_vacant hc k hm
    rw [hw] at hn
    cases hn
  have hklt : k < s.entries.length := by
    by_contra hge
    rw [List.getElem?_eq_none (Nat.le_of_not_lt hge)] at hw
    cases hw
  refine ⟨k :: L, ?_, List.nodup_cons.mpr ⟨hknotL, hnd⟩⟩
  refine FreeChain.step ?_ (chain_set_not_mem hc k _ hknotL)
  rw [List.getElem?_set_self hklt]

theorem contains_remove (s : Slab) (k : Nat) (h : s.contains k = true) :
    ∃ t, s.remove k = some (UserData.mk, t) := by
  unfold Slab.contains Slab.get at h
  split at h
  · rename_i v hv
    cases v
    refine ⟨⟨s.entries.set k (Entry.vacant s.next), s.len - 1, k⟩, ?_⟩
    unfold Slab.remove
    rw [hv]
  · simp at h

/-! ### Iteration lemmas -/

theorem iterIdsAux_ge : ∀ (es : List Entry) (i j : Nat), j ∈ iterIdsAux es i → i ≤ j := by
  intro es
  induction es with
  | nil => intro i j hj; exact absurd hj (List.not_mem_nil j)
  | cons e es ih =>
    intro i j hj
    cases e with
    | occupied v =>
      simp only [iterIdsAux] at hj
      rcases List.mem_cons.mp hj with rfl | hj
      · exact Nat.le_refl j
      · exact Nat.le_of_succ_le (ih (i + 1) j hj)
    | vacant n =>
      simp only [iterIdsAux] at hj
      exact Nat.le_of_succ_le (ih (i + 1) j hj)

theorem iterIdsAux_sorted : ∀ (es : List Entry) (i : Nat),
    List.Sorted (· < ·) (iterIdsAux es i) := by
  intro es
  induction es with
  | nil => intro i; exact List.sorted_nil
  | cons e es ih =>
    intro i
    cases e with
    | occupied v =>
      simp only [iterIdsAux]
      exact List.sorted_cons.mpr ⟨fun j hj => iterIdsAux_ge es (i + 1) j hj, ih (i + 1)⟩
    | vacant n =>
      simp only [iterIdsAux]
      exact ih (i + 1)

theorem iterIds_sorted (s : Slab) : List.Sorted (· < ·) s.iterIds :=
  iterIdsAux_sorted s.entries 0

theorem iterIdsAux_mem : ∀ (es : List Entry) (i j : Nat),
    ((i + j) ∈ iterIdsAux es i ↔ ∃ v, es[j]? = some (Entry.occupied v)) := by
  intro es
  induction es with
  | nil =>
    intro i j
    simp [iterIdsAux]
  | cons e es ih =>
    intro i j
    cases e with
    | occupied v =>
      cases j with
      | zero =>
        rw [Nat.add_zero]
        constructor
        · intro _
          exact ⟨v, List.getElem?_cons_zero⟩
        · intro _
          exact List.mem_cons_self i _
      | succ k =>
        simp only [iterIdsAux, List.mem_cons, List.getElem?_cons_succ]
        have heq : i + (k + 1) = (i + 1) + k := by omega
        constructor
        · rintro (habs | hm)
          · omega
          · rw [heq] at hm
            exact (ih (i + 1) k).mp hm
        · intro hx
          right
          rw [heq]
          exact (ih (i + 1) k).mpr hx
    | vacant n =>
      cases j with
      | zero =>
        simp only [iterIdsAux, Nat.add_zero, List.getElem?_cons_zero]
        constructor
        · intro hm
          exact absurd (iterIdsAux_ge es (i + 1) i hm) (by omega)
        · intro ⟨v, hv⟩
          cases hv
      | succ k =>
        simp only [iterIdsAux, List.getElem?_cons_succ]
        have : i + (k + 1) = (i + 1) + k := by omega
        rw [this]
        exact ih (i + 1) k

theorem iterIds_mem (s : Slab) (id : Nat) :
    id ∈ s.iterIds ↔ s.contains id = true := by
  unfold Slab.iterIds Slab.contains Slab.get
  have h := iterIdsAux_mem s.entries 0 id
  rw [Nat.zero_add] at h
  rw [h]
  constructor
  · intro ⟨v, hv⟩
    rw [hv]
    rfl
  · intro hc
    split at hc
    · rename_i v hv
      exact ⟨v, hv⟩
    · simp at hc

/-! ### Dispatcher lemmas -/

theorem user_item_dispatch_resp (m : Method) (uid : Option Nat) (s : Slab)
    (p : Response × Slab) (hp : user_item_dispatch m uid s = some p) :
    p.1.status = 200 ∨ p.1.body = "" := by
  cases m with
  | GET =>
    cases uid with
    | none =>
      simp only [user_item_dispatch, Option.some.injEq] at hp
      subst hp
      right; rfl
    | some id =>
      simp only [user_item_dispatch] at hp
      split at hp <;> simp only [Option.some.injEq] at hp <;> subst hp
      · left; rfl
      · right; rfl
  | PUT =>
    cases uid with
    | none =>
      simp only [user_item_dispatch, Option.some.injEq] at hp
      subst hp
      right; rfl
    | some id =>
      simp only [user_item_dispatch] at hp
      split at hp <;> simp only [Option.some.injEq] at hp <;> subst hp
      · left; rfl
      · right; rfl
  | POST =>
    cases uid with
    | none =>
      simp only [user_item_dispatch] at hp
      split at hp
      · simp only [Option.some.injEq] at hp
        subst hp
        left; rfl
      · exact absurd hp (by simp)
    | some id =>
      simp only [user_item_dispatch, Option.some.injEq] at hp
      subst hp
      right; rfl
  | DELETE =>
    cases uid with
    | none =>
      simp only [user_item_dispatch, Option.some.injEq] at hp
      subst hp
      right; rfl
    | some id =>
      simp only [user_item_dispatch] at hp
      split at hp
      · split at hp
        · simp only [Option.some.injEq] at hp
          subst hp
          right; rfl
        · exact absurd hp (by simp)
      · simp only [Option.some.injEq] at hp
        subst hp
        right; rfl
  | other name =>
    cases uid with
    | none =>
      simp only [user_item_dispatch, Option.some.injEq] at hp
      subst hp
      right; rfl
    | some id =>
      simp only [user_item_dispatch, Option.some.injEq] at hp
      subst hp
      right; rfl

theorem microservice_handler_resp (m : Method) (path b : String) (s : Slab)
    (p : Response × Slab) (hp : microservice_handler m path b s = some p) :
    p.1.status = 200 ∨ p.1.body = "" := by
  unfold microservice_handler at hp
  split at hp
  · split at hp <;> simp only [Option.some.injEq] at hp <;> subst hp
    · left; rfl
    · right; rfl
  · split at hp
    · split at hp <;> simp only [Option.some.injEq] at hp <;> subst hp
      · left; rfl
      · right; rfl
    · split at hp
      · exact user_item_dispatch_resp _ _ _ p hp
      · simp only [Option.some.injEq] at hp
        subst hp
        right; rfl

theorem user_item_dispatch_total (m : Method) (uid : Option Nat) (s : Slab) (h : s.WF) :
    ∃ r t, user_item_dispatch m uid s = some (r, t) ∧
      (r.status = 200 ∨ r.status = 400 ∨ r.status = 404 ∨ r.status = 405) ∧ t.WF := by
  cases m with
  | GET =>
    cases uid with
    | none => exact ⟨_, _, rfl, Or.inr (Or.inr (Or.inr rfl)), h⟩
    | some id =>
      cases hg : s.get id with
      | some d =>
        refine ⟨⟨200, d.display⟩, s, ?_, Or.inl rfl, h⟩
        simp only [user_item_dispatch, hg]
      | none =>
        refine ⟨response_with_code 404, s, ?_, Or.inr (Or.inr (Or.inl rfl)), h⟩
        simp only [user_item_dispatch, hg]
  | PUT =>
    cases uid with
    | none => exact ⟨_, _, rfl, Or.inr (Or.inr (Or.inr rfl)), h⟩
    | some id =>
      cases hv : s.setValue id UserData.mk with
      | some u =>
        refine ⟨response_with_code 200, u, ?_, Or.inl rfl, setValue_WF s id UserData.mk u hv h⟩
        simp only [user_item_dispatch, hv]
      | none =>
        refine ⟨response_with_code 404, s, ?_, Or.inr (Or.inr (Or.inl rfl)), h⟩
        simp only [user_item_dispatch, hv]
  | POST =>
    cases uid with
    | none =>
      obtain ⟨t, hins, hWFt⟩ := insert_WF s UserData.mk h
      refine ⟨⟨200, Nat.repr s.next⟩, t, ?_, Or.inl rfl, hWFt⟩
      simp only [user_item_dispatch, hins]
    | some id => exact ⟨_, _, rfl, Or.inr (Or.inl rfl), h⟩
  | DELETE =>
    cases uid with
    | none => exact ⟨_, _, rfl, Or.inr (Or.inr (Or.inr rfl)), h⟩
    | some id =>
      cases hcon : s.contains id with
      | true =>
        obtain ⟨t, hrem⟩ := contains_remove s id hcon
        refine ⟨response_with_code 200, t, ?_, Or.inl rfl, remove_WF s id UserData.mk t hrem h⟩
        simp [user_item_dispatch, hcon, hrem]
      | false =>
        refine ⟨response_with_code 404, s, ?_, Or.inr (Or.inr (Or.inl rfl)), h⟩
        simp only [user_item_dispatch, hcon]
        rfl
  | other name =>
    cases uid with
    | none => exact ⟨_, _, rfl, Or.inr (Or.inr (Or.inr rfl)), h⟩
    | some id => exact ⟨_, _, rfl, Or.inr (Or.inr (Or.inr rfl)), h⟩

/-! ### Claim theorems -/

/-- Concrete operation trace for claim C1: three inserts, remove id 0, then
remove id 1, then insert again; the result records the id the final insert
assigned together with whether slot 0 is still live at that point. -/
def lifoTrace : Option (Nat × Bool) :=
  (Slab.new.insert UserData.mk).bind fun a =>
    (a.2.insert UserData.mk).bind fun b =>
      (b.2.insert UserData.mk).bind fun c =>
        (c.2.remove 0).bind fun d =>
          (d.2.remove 1).bind fun e =>
            (e.2.insert UserData.mk).map fun f => (f.1, e.2.contains 0)

/-- C1 counterexample: after inserting ids 0, 1, 2 and removing 0 then 1,
slot 0 is free (not live), yet the next insert assigns id 1, not the
lowest-numbered free slot 0 — the slab free list is LIFO, not
lowest-first. -/
theorem insert_not_lowest_counterexample :
    lifoTrace = some (1, false) ∧ (1 : Nat) ≠ 0 := by
  exact ⟨rfl, by decide⟩

/-- C1 (amended): `insert` assigns the head of the LIFO free list; in
particular, immediately after a successful removal of record `k`, the next
insert reassigns exactly `k`. -/
theorem insert_after_remove_reassigns (s : Slab) (k : Nat) (w v : UserData) (s' : Slab)
    (h : s.remove k = some (w, s')) :
    ∃ t, s'.insert v = some (k, t) := by
  obtain ⟨hocc, rfl⟩ := remove_eq s k w s' h
  have hklt : k < s.entries.length := by
    by_contra hge
    rw [List.getElem?_eq_none (Nat.le_of_not_lt hge)] at hocc
    cases hocc
  have hlen : (s.entries.set k (Entry.vacant s.next)).length = s.entries.length :=
    List.length_set ..
  refine ⟨⟨(s.entries.set k (Entry.vacant s.next)).set k (Entry.occupied v),
    (s.len - 1) + 1, s.next⟩, ?_⟩
  unfold Slab.insert
  dsimp only
  rw [if_neg (by rw [hlen]; omega), List.getElem?_set_self hklt]

/-- C1 witness: a one-record slab; removing record 0 and inserting again
reassigns id 0. -/
theorem insert_after_remove_reassigns_witness :
    ∃ t, Slab.insert ⟨[Entry.vacant 1], 0, 0⟩ UserData.mk = some (0, t) :=
  insert_after_remove_reassigns ⟨[Entry.occupied UserData.mk], 1, 1⟩ 0 UserData.mk
    UserData.mk ⟨[Entry.vacant 1], 0, 0⟩ rfl

/-- C2 counterexample: a GET on the item path with no id (`/user/`) yields
status 405, not the 404 the claim states. -/
theorem item_no_id_counterexample :
    (microservice_handler Method.GET "/user/" "" Slab.new).map (fun p => p.1.status) =
      some 405 ∧ (405 : Nat) ≠ 404 := by
  exact ⟨rfl, by decide⟩

/-- C2 (amended): on an item path whose optional id is absent, GET, PUT and
DELETE all fall into the catch-all arm of the dispatch match and yield 405
(method-not-allowed), with the store unchanged. -/
theorem item_no_id_yields_405 (m : Method) (path b : String) (s : Slab)
    (hcap : USER_PATH_captures path.data = some none)
    (hm : m = Method.GET ∨ m = Method.PUT ∨ m = Method.DELETE) :
    microservice_handler m path b s = some (response_with_code 405, s) := by
  rw [handler_user_branch m path b s none hcap]
  rcases hm with rfl | rfl | rfl <;> rfl

/-- C2 witness: `GET /user/` on the empty store yields 405. -/
theorem item_no_id_yields_405_witness :
    microservice_handler Method.GET "/user/" "" Slab.new =
      some (response_with_code 405, Slab.new) :=
  item_no_id_yields_405 Method.GET "/user/" "" Slab.new rfl (Or.inl rfl)

/-- C3 counterexample: `GET /index` yields 404, not 200 — the regex
`^/(index\.html?)?$` does not match `/index`. -/
theorem index_path_counterexample :
    (microservice_handler Method.GET "/index" "" Slab.new).map (fun p => p.1.status) =
      some 404 ∧ (404 : Nat) ≠ 200 := by
  exact ⟨rfl, by decide⟩

/-- C3 (amended): the root/index paths are exactly `/`, `/index.htm` and
`/index.html` (no `/index`, no trailing slash); a GET on any of them
returns 200 with the `INDEX` landing content and leaves the store
unchanged. -/
theorem index_get_ok (path b : String) (s : Slab)
    (hp : path = "/" ∨ path = "/index.htm" ∨ path = "/index.html") :
    microservice_handler Method.GET path b s = some (⟨200, INDEX⟩, s) := by
  rcases hp with rfl | rfl | rfl <;> rfl

/-- C3 witness: `GET /` returns the landing page. -/
theorem index_get_ok_witness :
    microservice_handler Method.GET "/" "" Slab.new = some (⟨200, INDEX⟩, Slab.new) :=
  index_get_ok "/" "" Slab.new (Or.inl rfl)

/-- C4 counterexample: `GET /user/18446744073709551616` (the id text is one
past `u64::MAX`, so the path shape accepts it but the parse fails) yields
405, not the 404 the claim states. -/
theorem overflow_id_counterexample :
    (microservice_handler Method.GET "/user/18446744073709551616" "" Slab.new).map
      (fun p => p.1.status) = some 405 ∧ (405 : Nat) ≠ 404 := by
  exact ⟨rfl, by decide⟩

/-- C4 (amended): an id text accepted by the path shape whose value does not
fit in a `u64` is treated exactly as if no id were present: the request
behaves identically to a request for the bare item path `/user/` (405 for
GET/PUT/DELETE, a fresh insert for POST) — not a routing-time error, but
also not necessarily 404. -/
theorem overflow_id_as_absent (m : Method) (path b : String) (s : Slab) (ds : List Char)
    (hcap : USER_PATH_captures path.data = some (some ds))
    (hover : U64_SIZE ≤ digitsVal ds 0) :
    microservice_handler m path b s = microservice_handler m "/user/" b s := by
  obtain ⟨hne, hdig⟩ := captures_digits _ _ hcap
  have hparse : parse_u64 ds = none := by
    unfold parse_u64
    rw [if_neg (by simp [List.isEmpty_iff]; exact hne), if_pos hdig]
    dsimp only
    rw [if_neg (Nat.not_lt.mpr hover)]
  rw [handler_user_branch m path b s (some ds) hcap,
    handler_user_branch m "/user/" b s none rfl]
  show user_item_dispatch m (parse_u64 ds) s = user_item_dispatch m none s
  rw [hparse]

/-- C4 witness: the overflowing id behaves exactly like the absent id. -/
theorem overflow_id_as_absent_witness :
    microservice_handler Method.GET "/user/18446744073709551616" "" Slab.new =
      microservice_handler Method.GET "/user/" "" Slab.new :=
  overflow_id_as_absent Method.GET "/user/18446744073709551616" "" Slab.new
    "18446744073709551616".data rfl (by decide)

/-- C5 (confirmed): a GET on `/users` or `/users/` returns 200 with body the
comma-joined decimal renderings of the live ids; the id list is strictly
ascending for every store state, contains exactly the live ids, and renders
to the empty string when no record is live.  The store is unchanged. -/
theorem users_list_ok (path b : String) (s : Slab)
    (hp : path = "/users" ∨ path = "/users/") :
    microservice_handler Method.GET path b s =
      some (⟨200, String.intercalate "," (s.iterIds.map Nat.repr)⟩, s) ∧
    List.Sorted (· < ·) s.iterIds ∧
    (∀ id, id ∈ s.iterIds ↔ s.contains id = true) ∧
    (s.iterIds = [] → String.intercalate "," (s.iterIds.map Nat.repr) = "") := by
  refine ⟨?_, iterIds_sorted s, iterIds_mem s, ?_⟩
  · rcases hp with rfl | rfl <;> rfl
  · intro h
    rw [h]
    rfl

/-- C5 witness: `GET /users` on the empty store returns 200 with empty
body. -/
theorem users_list_ok_witness :
    microservice_handler Method.GET "/users" "" Slab.new =
      some (⟨200, String.intercalate "," ((Slab.iterIds Slab.new).map Nat.repr)⟩, Slab.new) ∧
    List.Sorted (· < ·) (Slab.iterIds Slab.new) ∧
    (∀ id, id ∈ Slab.iterIds Slab.new ↔ Slab.contains Slab.new id = true) ∧
    (Slab.iterIds Slab.new = [] →
      String.intercalate "," ((Slab.iterIds Slab.new).map Nat.repr) = "") :=
  users_list_ok "/users" "" Slab.new (Or.inl rfl)

/-- C6 (confirmed): for a live id, the first DELETE removes the record and
returns 200; a second DELETE of the same id on the resulting store returns
404 and leaves the store unchanged. -/
theorem delete_twice (path b b2 : String) (s : Slab) (ds : List Char) (id : Nat)
    (hcap : USER_PATH_captures path.data = some (some ds))
    (hparse : parse_u64 ds = some id)
    (hlive : s.contains id = true) :
    ∃ t, microservice_handler Method.DELETE path b s = some (response_with_code 200, t) ∧
      microservice_handler Method.DELETE path b2 t = some (response_with_code 404, t) := by
  obtain ⟨t, hrem⟩ := contains_remove s id hlive
  obtain ⟨hocc, ht⟩ := remove_eq s id UserData.mk t hrem
  have hklt : id < s.entries.length := by
    by_contra hge
    rw [List.getElem?_eq_none (Nat.le_of_not_lt hge)] at hocc
    cases hocc
  have hdead : t.contains id = false := by
    subst ht
    unfold Slab.contains Slab.get
    dsimp only
    rw [List.getElem?_set_self hklt]
    rfl
  refine ⟨t, ?_, ?_⟩
  · rw [handler_user_branch _ _ _ _ _ hcap]
    show user_item_dispatch Method.DELETE (parse_u64 ds) s = _
    rw [hparse]
    simp [user_item_dispatch, hlive, hrem]
  · rw [handler_user_branch _ _ _ _ _ hcap]
    show user_item_dispatch Method.DELETE (parse_u64 ds) t = _
    rw [hparse]
    simp [user_item_dispatch, hdead]

/-- C6 witness: a store holding record 0; `DELETE /user/0` twice gives 200
then 404. -/
theorem delete_twice_witness :
    ∃ t, microservice_handler Method.DELETE "/user/0" ""
        ⟨[Entry.occupied UserData.mk], 1, 1⟩ = some (response_with_code 200, t) ∧
      microservice_handler Method.DELETE "/user/0" "" t =
        some (response_with_code 404, t) :=
  delete_twice "/user/0" "" "" ⟨[Entry.occupied UserData.mk], 1, 1⟩ ['0'] 0 rfl rfl rfl

/-- C7 (confirmed): on a well-formed store, POST to the item path with the
id absent always succeeds: the insert assigns `s.next` and the response is
200 with the decimal rendering of that id; POST with a parsed id present
yields 400 and leaves the store unchanged. -/
theorem post_insert_behavior (path b : String) (s : Slab) (hWF : s.WF) :
    (USER_PATH_captures path.data = some none →
      ∃ t, Slab.insert s UserData.mk = some (s.next, t) ∧
        microservice_handler Method.POST path b s = some (⟨200, Nat.repr s.next⟩, t)) ∧
    (∀ ds id, USER_PATH_captures path.data = some (some ds) → parse_u64 ds = some id →
      microservice_handler Method.POST path b s = some (response_with_code 400, s)) := by
  constructor
  · intro hcap
    obtain ⟨t, hins, _⟩ := insert_WF s UserData.mk hWF
    refine ⟨t, hins, ?_⟩
    rw [handler_user_branch _ _ _ _ _ hcap]
    show user_item_dispatch Method.POST none s = _
    simp only [user_item_dispatch, hins]
  · intro ds id hcap hparse
    rw [handler_user_branch _ _ _ _ _ hcap]
    show user_item_dispatch Method.POST (parse_u64 ds) s = _
    rw [hparse]
    rfl

/-- C7 witness: `POST /user/` on the empty store inserts id 0 and answers
200 with body "0". -/
theorem post_insert_behavior_witness :
    ∃ t, Slab.insert Slab.new UserData.mk = some (Slab.new.next, t) ∧
      microservice_handler Method.POST "/user/" "" Slab.new =
        some (⟨200, Nat.repr Slab.new.next⟩, t) :=
  (post_insert_behavior "/user/" "" Slab.new WF_new).1 rfl

/-- C8 (confirmed): for every method, path, request body and well-formed
store, the handler returns exactly one response without reaching a panicking
path, its status is one of 200, 400, 404, 405, and the resulting store is
again well-formed (so every store reachable from `Slab.new` stays in the
hypothesis' domain). -/
theorem routing_totality (m : Method) (path b : String) (s : Slab) (hWF : s.WF) :
    ∃ r t, microservice_handler m path b s = some (r, t) ∧
      (r.status = 200 ∨ r.status = 400 ∨ r.status = 404 ∨ r.status = 405) ∧ t.WF := by
  unfold microservice_handler
  split
  · split
    · exact ⟨_, _, rfl, Or.inl rfl, hWF⟩
    · exact ⟨_, _, rfl, Or.inr (Or.inr (Or.inr rfl)), hWF⟩
  · split
    · split
      · exact ⟨_, _, rfl, Or.inl rfl, hWF⟩
      · exact ⟨_, _, rfl, Or.inr (Or.inr (Or.inr rfl)), hWF⟩
    · split
      · exact user_item_dispatch_total _ _ _ hWF
      · exact ⟨_, _, rfl, Or.inr (Or.inr (Or.inl rfl)), hWF⟩

/-- C8 witness: the empty store is well-formed and `GET /` produces one
outcome in the allowed status set. -/
theorem routing_totality_witness :
    ∃ r t, microservice_handler Method.GET "/" "" Slab.new = some (r, t) ∧
      (r.status = 200 ∨ r.status = 400 ∨ r.status = 404 ∨ r.status = 405) ∧ t.WF :=
  routing_totality Method.GET "/" "" Slab.new WF_new

/-- C9 (confirmed): every 400, 404 or 405 response the handler produces has
an empty body. -/
theorem error_responses_empty_body (m : Method) (path b : String) (s : Slab)
    (p : Response × Slab) (hp : microservice_handler m path b s = some p)
    (hs : p.1.status = 400 ∨ p.1.status = 404 ∨ p.1.status = 405) :
    p.1.body = "" := by
  rcases microservice_handler_resp m path b s p hp with h200 | hbody
  · rcases hs with h | h | h <;> omega
  · exact hbody

/-- C9 witness: the 404 answer to `GET /nope` has an empty body. -/
theorem error_responses_empty_body_witness :
    (response_with_code 404).body = "" :=
  error_responses_empty_body Method.GET "/nope" "" Slab.new
    (response_with_code 404, Slab.new) rfl (Or.inr (Or.inl rfl))

/-- C10 (confirmed): the handler never reads the request body; in
particular two PUT requests that agree on path and store but differ in
body produce the same response and the same resulting store (so the stored
record after a successful PUT is independent of the payload sent). -/
theorem put_ignores_request_body (path b1 b2 : String) (s : Slab) :
    microservice_handler Method.PUT path b1 s = microservice_handler Method.PUT path b2 s :=
  rfl

end HyperMicroservice
